import Mathlib

/-!
Verification of the traversal-and-download engine of `src/main.py`
(file-download-crawler).  The engine is shallowly embedded: the pure helpers
(`sanitize_filename`, `same_origin`, `collect_links`) become Lean functions,
and the stateful crawl loop of `crawl_documents` becomes a step function on an
explicit `RunState`, parameterised by an `Env` record holding the external
collaborators (urllib parsing and joining, the browser session, the network).
-/

set_option maxHeartbeats 1000000

namespace Crawler

/-- Python string truthiness fallback: the value of the expression `a or b`
for strings, which is `a` when `a` is nonempty and `b` otherwise. -/
def pyOr (a b : String) : String := if a = "" then b else a

/-- The character class of the first regex in `sanitize_filename`
(src/main.py line 56): backslash, slash, colon, star, question mark,
double quote, less-than, greater-than, pipe. -/
def isReservedChar (c : Char) : Bool :=
  c = '\\' || c = '/' || c = ':' || c = '*' || c = '?' || c = '"' ||
  c = '<' || c = '>' || c = '|'

/-- Whitespace as matched by the regex class `\s` and stripped by
`str.strip`, restricted to the ASCII whitespace characters (space, tab,
newline, carriage return, vertical tab, form feed). -/
def isPyWs (c : Char) : Bool :=
  c = ' ' || c = '\t' || c = '\n' || c = '\r' ||
  c = Char.ofNat 11 || c = Char.ofNat 12

/-- Replace every maximal run of characters satisfying `pred` by the single
character `rep`; the Boolean argument records whether the previous character
belonged to such a run.  This models `re.sub` with a pattern of the form
"character class followed by plus". -/
def replaceRuns (pred : Char → Bool) (rep : Char) : Bool → List Char → List Char
  | _, [] => []
  | inRun, c :: cs =>
    if pred c then
      if inRun then replaceRuns pred rep true cs
      else rep :: replaceRuns pred rep true cs
    else c :: replaceRuns pred rep false cs

/-- `str.strip`: drop leading and trailing whitespace of a character list. -/
def stripChars (l : List Char) : List Char :=
  ((l.dropWhile isPyWs).reverse.dropWhile isPyWs).reverse

/-- The `sanitize_filename` pipeline of src/main.py lines 54-58 before the
final truncation: strip, replace each reserved-character run with one
underscore, collapse each whitespace run to one space. -/
def sanitizePre (l : List Char) : List Char :=
  replaceRuns isPyWs ' ' false (replaceRuns isReservedChar '_' false (stripChars l))

/-- `sanitize_filename` from src/main.py lines 54-58: the pipeline above
followed by truncation to the first 200 characters. -/
def sanitize_filename (s : String) : String :=
  String.mk ((sanitizePre s.data).take 200)

/-- `str.strip` on a `String`. -/
def stripStr (s : String) : String := String.mk (stripChars s.data)

/-- The environment-derived configuration of src/main.py that the modelled
claims depend on: `BASE_URL` and `RESTRICT_TO_DOMAIN`. -/
structure Config where
  baseUrl : String
  restrictToDomain : Bool
deriving DecidableEq

/-- An anchor element as returned by the browser session: the href
attribute, the inner text and the download attribute, with the empty string
standing for a missing attribute or missing text. -/
structure RawLink where
  href : String
  innerText : String
  downloadAttr : String
deriving DecidableEq

/-- Outcome of the direct-fetch fallback `page.goto` on a file URL
(src/main.py lines 197-212): an exception anywhere in the fallback block
(`err`), a missing response object (`noResp`), or a response carrying its
`ok` status.  A response with `ok = true` also completes the body write. -/
inductive FetchResult
  | err
  | noResp
  | resp (ok : Bool)
deriving DecidableEq

/-- Observable actions of the engine: a successful frontier navigation, a
timed-out frontier navigation, the fallback `page.goto` issued on a file
URL, and a completed file save recorded with its directory segments, file
name and file URL. -/
inductive Event
  | nav (url : String)
  | navTimeout (url : String)
  | fallbackNav (url : String)
  | save (dir : List String) (name : String) (url : String)
deriving DecidableEq

/-- The collaborators consumed by `crawl_documents`: `urlparse(.).netloc`
(with `none` standing for a raised exception), `urljoin`, navigation success,
the current-folder element text, the raw folder and file anchors of a page,
the download-capture outcome (`none` is a timeout, `some s` a download event
with suggested filename `s`), the fallback fetch outcome, and
`os.path.basename(urlparse(u).path)`. -/
structure Env where
  parseNetloc : String → Option String
  urljoin : String → String → String
  navOk : String → Bool
  currentFolder : String → String
  rawFolderLinks : String → List RawLink
  rawFileLinks : String → List RawLink
  capture : String → Option String
  fetch : String → FetchResult
  pathBasename : String → String

/-- State threaded through the crawl loop of `crawl_documents`: the BFS
queue of (url, relative path) pairs, the visited set, the in-memory
DownloadedSet, the persisted store contents, the number of `save_state`
calls performed, and the trace of observable events. -/
structure RunState where
  queue : List (String × List String)
  visited : List String
  done : List String
  store : List String
  persists : Nat
  trace : List Event
deriving DecidableEq

/-- `same_origin` from src/main.py lines 63-69: `true` when the restriction
is off; with the restriction on, the netloc components are compared, and a
parse failure of either URL yields `true` (fail open). -/
def same_origin (cfg : Config) (env : Env) (url base : String) : Bool :=
  if cfg.restrictToDomain then
    match env.parseNetloc url, env.parseNetloc base with
    | some a, some b => a == b
    | _, _ => true
  else true

/-- The check `url.startswith("http")` of src/main.py lines 148, 175 and
183: the first four characters are exactly "http". -/
def startsWithHttp (s : String) : Bool :=
  match s.data with
  | 'h' :: 't' :: 't' :: 'p' :: _ => true
  | _ => false

/-- Resolution of a possibly relative href, as in src/main.py lines 148, 175
and 183: the href is kept as is when it starts with "http", otherwise it is
joined against the given base. -/
def resolveHref (env : Env) (base href : String) : String :=
  if startsWithHttp href then href else env.urljoin base href

/-- `collect_links` from src/main.py lines 100-119: folder links keep their
stripped inner text; file links carry the download attribute when present
and the stripped inner text otherwise; links with an empty href are
dropped. -/
def collect_links (folderRaw fileRaw : List RawLink) :
    List (String × String) × List (String × String) :=
  (folderRaw.filterMap fun l =>
     if l.href = "" then none else some (l.href, stripStr l.innerText),
   fileRaw.filterMap fun l =>
     if l.href = "" then none else some (l.href, pyOr l.downloadAttr (stripStr l.innerText)))

/-- `get_current_folder_name` from src/main.py lines 121-127: the stripped
text of the current-folder element, empty when the selector or element is
absent. -/
def get_current_folder_name (env : Env) (url : String) : String :=
  stripStr (env.currentFolder url)

/-- The origin filter applied in `crawl_documents` lines 152 and 176:
reject exactly when the restriction is on and `same_origin` fails against
`BASE_URL or fallbackBase` (the Python `or` falls back to the current
absolute URL when `BASE_URL` is empty). -/
def originReject (cfg : Config) (env : Env) (fallbackBase url : String) : Bool :=
  cfg.restrictToDomain && !(same_origin cfg env url (pyOr cfg.baseUrl fallbackBase))

/-- Processing of one file reference, src/main.py lines 182-221: skip when
the resolved URL is already in the DownloadedSet; otherwise attempt the
capture-click strategy, and on its timeout fall back to a direct fetch.
Each successful save appends a save event, inserts the URL into the set and
immediately re-persists the store; a failed fallback changes no state beyond
recording the attempted navigation. -/
def processFile (env : Env) (effRel : List String) (absUrl : String)
    (st : RunState) (l : String × String) : RunState :=
  let fileUrl := resolveHref env absUrl l.1
  if fileUrl ∈ st.done then st
  else
    match env.capture fileUrl with
    | some suggested =>
      let fname := sanitize_filename (pyOr suggested (pyOr l.2 "file"))
      let done2 := fileUrl :: st.done
      { st with done := done2, store := done2, persists := st.persists + 1,
                trace := st.trace ++ [Event.save effRel fname fileUrl] }
    | none =>
      match env.fetch fileUrl with
      | FetchResult.resp true =>
        let fname := sanitize_filename (pyOr (env.pathBasename fileUrl) (pyOr l.2 "file"))
        let done2 := fileUrl :: st.done
        { st with done := done2, store := done2, persists := st.persists + 1,
                  trace := st.trace ++ [Event.fallbackNav fileUrl, Event.save effRel fname fileUrl] }
      | _ => { st with trace := st.trace ++ [Event.fallbackNav fileUrl] }

/-- The effective relative path of a visited page, src/main.py line 167: the
queued relative path, extended by the sanitized current-folder name when that
signal is present and unchanged when it is absent. -/
def effRelOf (env : Env) (absUrl : String) (relPath : List String) : List String :=
  if get_current_folder_name env absUrl = "" then relPath
  else relPath ++ [sanitize_filename (get_current_folder_name env absUrl)]

/-- The frontier entries enqueued while visiting a page, src/main.py lines
174-179: each folder link is resolved against the current page's absolute
URL, filtered by the origin check, and queued under the effective path
extended by its sanitized link text (falling back to "folder" on empty
text). -/
def childEntries (cfg : Config) (env : Env) (absUrl : String) (eff : List String) :
    List (String × List String) :=
  (collect_links (env.rawFolderLinks absUrl) (env.rawFileLinks absUrl)).1.filterMap fun fl =>
    if originReject cfg env absUrl (resolveHref env absUrl fl.1) then none
    else some (resolveHref env absUrl fl.1, eff ++ [sanitize_filename (pyOr fl.2 "folder")])

/-- Body of a successful page visit, src/main.py lines 162-221: mark the URL
visited, derive the effective relative path from the optional current-folder
name, enqueue the same-origin subfolders under their sanitized link text,
then process each file link in order. -/
def visitPage (cfg : Config) (env : Env) (absUrl : String) (relPath : List String)
    (st : RunState) : RunState :=
  (collect_links (env.rawFolderLinks absUrl) (env.rawFileLinks absUrl)).2.foldl
    (processFile env (effRelOf env absUrl relPath) absUrl)
    { st with visited := absUrl :: st.visited,
              trace := st.trace ++ [Event.nav absUrl],
              queue := st.queue ++ childEntries cfg env absUrl (effRelOf env absUrl relPath) }

/-- One iteration of the while loop of `crawl_documents`, lines 146-221:
pop the head entry, resolve it against `BASE_URL`, skip it when already
visited or rejected by the origin filter, otherwise navigate; a navigation
timeout only logs and moves on (without marking the URL visited), a success
runs the visit body. -/
def step (cfg : Config) (env : Env) (st : RunState) : RunState :=
  match st.queue with
  | [] => st
  | (url, relPath) :: rest =>
    let st1 := { st with queue := rest }
    let absUrl := resolveHref env (cfg.baseUrl ++ "/") url
    if absUrl ∈ st1.visited then st1
    else if originReject cfg env absUrl absUrl then st1
    else if env.navOk absUrl then visitPage cfg env absUrl relPath st1
    else { st1 with trace := st1.trace ++ [Event.navTimeout absUrl] }

/-- The crawl loop with explicit fuel.  `step` is the identity once the
queue is empty, so every sufficiently large fuel computes the final state of
the while loop. -/
def crawl (cfg : Config) (env : Env) : Nat → RunState → RunState
  | 0, st => st
  | n + 1, st => crawl cfg env n (step cfg env st)

/-- Engine start, src/main.py lines 129-145: the DownloadedSet is loaded
exactly once into `done`, the persisted store holds the same contents, and
the queue starts at the start URL with the empty relative path (the download
root). -/
def initState (start : String) (d0 : List String) : RunState :=
  { queue := [(start, [])], visited := [], done := d0, store := d0,
    persists := 0, trace := [] }

/-- Number of completed file saves recorded in a trace. -/
def saveCount : List Event → Nat
  | [] => 0
  | Event.save _ _ _ :: t => 1 + saveCount t
  | Event.nav _ :: t => saveCount t
  | Event.navTimeout _ :: t => saveCount t
  | Event.fallbackNav _ :: t => saveCount t

/-- URLs of the completed file saves recorded in a trace. -/
def savedUrls : List Event → List String
  | [] => []
  | Event.save _ _ u :: t => u :: savedUrls t
  | Event.nav _ :: t => savedUrls t
  | Event.navTimeout _ :: t => savedUrls t
  | Event.fallbackNav _ :: t => savedUrls t

/-- Number of successful frontier navigations to a given URL in a trace. -/
def navOkCount : List Event → String → Nat
  | [], _ => 0
  | Event.nav v :: t, u => (if v = u then 1 else 0) + navOkCount t u
  | Event.save _ _ _ :: t, u => navOkCount t u
  | Event.navTimeout _ :: t, u => navOkCount t u
  | Event.fallbackNav _ :: t, u => navOkCount t u

/-- Number of page navigations issued to a given URL, counting successful
frontier navigations, timed-out frontier navigations and fallback fetch
navigations alike. -/
def navIssuedCount : List Event → String → Nat
  | [], _ => 0
  | Event.nav v :: t, u => (if v = u then 1 else 0) + navIssuedCount t u
  | Event.navTimeout v :: t, u => (if v = u then 1 else 0) + navIssuedCount t u
  | Event.fallbackNav v :: t, u => (if v = u then 1 else 0) + navIssuedCount t u
  | Event.save _ _ _ :: t, u => navIssuedCount t u

/-- Invariant of the crawl loop behind the no-duplicate-visits property: the
visited set is duplicate-free, and a URL has exactly one successful frontier
navigation in the trace when visited and none otherwise. -/
def VisitedInv (st : RunState) : Prop :=
  st.visited.Nodup ∧ ∀ u, navOkCount st.trace u = (if u ∈ st.visited then 1 else 0)

/-- Relation between a state of a reference run and the state of a rerun
started from the reference run's final DownloadedSet `D`: the rerun follows
the same traversal, keeps its DownloadedSet and store constantly equal to
`D`, and has persisted nothing and saved nothing. -/
def Coupled (D : List String) (s s2 : RunState) : Prop :=
  s2.queue = s.queue ∧ s2.visited = s.visited ∧ s2.done = D ∧ s2.store = D ∧
  s2.persists = 0 ∧ saveCount s2.trace = 0

/-- The capture-strategy filename preference order exactly as claim C8 words
it, kept separate for comparison with the implementation: the sanitized
browser-suggested filename if present, else the link's display text, else
the literal string "file". -/
def specC8Filename (suggested displayText : String) : String :=
  if suggested ≠ "" then sanitize_filename suggested
  else if displayText ≠ "" then displayText
  else "file"

/-- An environment in which every collaborator is inert: nothing parses,
joins are the href itself, every navigation succeeds, pages are empty and
every download attempt fails. -/
def baseEnv : Env where
  parseNetloc := fun _ => none
  urljoin := fun _ h => h
  navOk := fun _ => true
  currentFolder := fun _ => ""
  rawFolderLinks := fun _ => []
  rawFileLinks := fun _ => []
  capture := fun _ => none
  fetch := fun _ => FetchResult.err
  pathBasename := fun _ => ""

/-- Configuration with the same-origin restriction disabled. -/
def cfgOpen : Config := { baseUrl := "http://h", restrictToDomain := false }

/-- Configuration with the same-origin restriction enabled. -/
def cfgStrict : Config := { baseUrl := "http://h", restrictToDomain := true }

/-- Environment whose root page links the same subfolder URL twice and whose
subfolder navigation always times out. -/
def envDupNav : Env :=
  { baseEnv with
      rawFolderLinks := fun u =>
        if u = "http://h/r" then
          [{ href := "http://h/x", innerText := "X", downloadAttr := "" },
           { href := "http://h/x", innerText := "X", downloadAttr := "" }]
        else [],
      navOk := fun u => u != "http://h/x" }

/-- Environment realising a folder chain of display texts `A`, `B`, `C`
below the start page, with a single file at the bottom whose capture
succeeds with suggested filename "Q1.pdf"; no page exposes a current-folder
name. -/
def chainEnv (A B C : String) : Env :=
  { baseEnv with
      rawFolderLinks := fun u =>
        if u = "http://h/r" then [{ href := "http://h/a", innerText := A, downloadAttr := "" }]
        else if u = "http://h/a" then [{ href := "http://h/b", innerText := B, downloadAttr := "" }]
        else if u = "http://h/b" then [{ href := "http://h/c", innerText := C, downloadAttr := "" }]
        else [],
      rawFileLinks := fun u =>
        if u = "http://h/c" then [{ href := "http://h/f", innerText := "Q1.pdf", downloadAttr := "" }]
        else [],
      capture := fun u => if u = "http://h/f" then some "Q1.pdf" else none }

/-- Environment with a single page carrying one file link, where every page
reports `cf` as its current-folder text. -/
def singleEnv (cf : String) : Env :=
  { baseEnv with
      currentFolder := fun _ => cf,
      rawFileLinks := fun u =>
        if u = "http://h/r" then [{ href := "http://h/f", innerText := "Q1.pdf", downloadAttr := "" }]
        else [],
      capture := fun u => if u = "http://h/f" then some "Q1.pdf" else none }

/-- Environment whose single file link carries both a download attribute and
a different display text, and whose download event reports an empty
suggested filename. -/
def envAttrName : Env :=
  { baseEnv with
      rawFileLinks := fun u =>
        if u = "http://h/r" then
          [{ href := "http://h/f", innerText := "Quarterly Report", downloadAttr := "report.pdf" }]
        else [],
      capture := fun u => if u = "http://h/f" then some "" else none }

/-- Environment with one root page and one file whose capture succeeds. -/
def envOneFile : Env :=
  { baseEnv with
      rawFileLinks := fun u =>
        if u = "http://h/r" then [{ href := "http://h/f", innerText := "Doc.pdf", downloadAttr := "" }]
        else [],
      capture := fun u => if u = "http://h/f" then some "Doc.pdf" else none }

/-- Environment where every capture times out and every fallback fetch
returns a non-success response. -/
def envFailFetch : Env :=
  { baseEnv with fetch := fun _ => FetchResult.resp false }

/-- Environment whose netloc parser places one file URL on a foreign host
and everything else on host "h", and whose capture succeeds on that file. -/
def envCross : Env :=
  { baseEnv with
      parseNetloc := fun u => if u = "http://evil/f" then some "evil" else some "h",
      capture := fun u => if u = "http://evil/f" then some "x.bin" else none }

/-! ### Lemmas about the sanitizer pipeline -/

theorem mem_replaceRuns {p : Char → Bool} {r : Char} {c : Char} :
    ∀ (b : Bool) (l : List Char), c ∈ replaceRuns p r b l → p c = false ∨ c = r := by
  intro b l
  induction l generalizing b with
  | nil => intro h; simp [replaceRuns] at h
  | cons a t ih =>
    intro h
    by_cases hpa : p a = true
    · cases b with
      | true =>
        simp only [replaceRuns, hpa, if_true] at h
        exact ih true h
      | false =>
        simp only [replaceRuns, hpa, if_true, Bool.false_eq_true, if_false] at h
        rcases List.mem_cons.mp h with h1 | h2
        · exact Or.inr h1
        · exact ih true h2
    · have hpa2 : p a = false := by simpa using hpa
      simp only [replaceRuns, hpa2, Bool.false_eq_true, if_false] at h
      rcases List.mem_cons.mp h with h1 | h2
      · subst h1; exact Or.inl hpa2
      · exact ih false h2

theorem mem_replaceRuns_sub {p : Char → Bool} {r : Char} {c : Char} :
    ∀ (b : Bool) (l : List Char), c ∈ replaceRuns p r b l → c = r ∨ c ∈ l := by
  intro b l
  induction l generalizing b with
  | nil => intro h; simp [replaceRuns] at h
  | cons a t ih =>
    intro h
    by_cases hpa : p a = true
    · cases b with
      | true =>
        simp only [replaceRuns, hpa, if_true] at h
        rcases ih true h with h1 | h2
        · exact Or.inl h1
        · exact Or.inr (List.mem_cons_of_mem a h2)
      | false =>
        simp only [replaceRuns, hpa, if_true, Bool.false_eq_true, if_false] at h
        rcases List.mem_cons.mp h with h1 | h2
        · exact Or.inl h1
        · rcases ih true h2 with h3 | h4
          · exact Or.inl h3
          · exact Or.inr (List.mem_cons_of_mem a h4)
    · have hpa2 : p a = false := by simpa using hpa
      simp only [replaceRuns, hpa2, Bool.false_eq_true, if_false] at h
      rcases List.mem_cons.mp h with h1 | h2
      · exact Or.inr (h1 ▸ List.mem_cons_self a t)
      · rcases ih false h2 with h3 | h4
        · exact Or.inl h3
        · exact Or.inr (List.mem_cons_of_mem a h4)

theorem rr_false_head {p : Char → Bool} {r : Char} (a : Char) (t : List Char) :
    (replaceRuns p r false (a :: t)).head? = some (if p a then r else a) := by
  by_cases hpa : p a = true
  · simp [replaceRuns, hpa]
  · have hpa2 : p a = false := by simpa using hpa
    simp [replaceRuns, hpa2]

theorem rr_true_head_false {p : Char → Bool} {r : Char} :
    ∀ (l : List Char) (c : Char), (replaceRuns p r true l).head? = some c → p c = false := by
  intro l
  induction l with
  | nil => intro c h; simp [replaceRuns] at h
  | cons a t ih =>
    intro c h
    by_cases hpa : p a = true
    · simp only [replaceRuns, hpa, if_true] at h
      exact ih c h
    · have hpa2 : p a = false := by simpa using hpa
      simp only [replaceRuns, hpa2, Bool.false_eq_true, if_false, List.head?_cons,
        Option.some.injEq] at h
      exact h ▸ hpa2

theorem chain'_replaceRuns {p : Char → Bool} {r : Char} :
    ∀ (b : Bool) (l : List Char),
      List.Chain' (fun x y => p x = false ∨ p y = false) (replaceRuns p r b l) := by
  intro b l
  induction l generalizing b with
  | nil => simp [replaceRuns]
  | cons a t ih =>
    by_cases hpa : p a = true
    · cases b with
      | true => simpa only [replaceRuns, hpa, if_true] using ih true
      | false =>
        simp only [replaceRuns, hpa, if_true, Bool.false_eq_true, if_false]
        rw [List.chain'_cons']
        refine ⟨fun y hy => Or.inr ?_, ih true⟩
        exact rr_true_head_false t y hy
    · have hpa2 : p a = false := by simpa using hpa
      simp only [replaceRuns, hpa2, Bool.false_eq_true, if_false]
      rw [List.chain'_cons']
      exact ⟨fun y _ => Or.inl hpa2, ih false⟩

theorem rr_cons_pos_true {p : Char → Bool} {r a : Char} {t : List Char} (hpa : p a = true) :
    replaceRuns p r true (a :: t) = replaceRuns p r true t := by
  simp [replaceRuns, hpa]

theorem rr_cons_pos_false {p : Char → Bool} {r a : Char} {t : List Char} (hpa : p a = true) :
    replaceRuns p r false (a :: t) = r :: replaceRuns p r true t := by
  simp [replaceRuns, hpa]

theorem rr_cons_neg {p : Char → Bool} {r a : Char} {t : List Char} (b : Bool)
    (hpa : p a = false) :
    replaceRuns p r b (a :: t) = a :: replaceRuns p r false t := by
  cases b <;> simp [replaceRuns, hpa]

theorem rr_false_ne_nil {p : Char → Bool} {r : Char} (a : Char) (t : List Char) :
    replaceRuns p r false (a :: t) ≠ [] := by
  by_cases hpa : p a = true
  · simp [replaceRuns, hpa]
  · have hpa2 : p a = false := by simpa using hpa
    simp [replaceRuns, hpa2]

theorem rr_getLast {p : Char → Bool} {r : Char} {c : Char} (hc : p c = false) :
    ∀ (l : List Char) (b : Bool), l.getLast? = some c →
      (replaceRuns p r b l).getLast? = some c := by
  intro l
  induction l with
  | nil => intro b h; simp at h
  | cons a t ih =>
    intro b h
    cases t with
    | nil =>
      simp only [List.getLast?_singleton, Option.some.injEq] at h
      subst h
      simp [replaceRuns, hc]
    | cons x xs =>
      rw [List.getLast?_cons_cons] at h
      have hm : ∀ b2, (replaceRuns p r b2 (x :: xs)).getLast? = some c := fun b2 => ih b2 h
      have hne : ∀ b2, replaceRuns p r b2 (x :: xs) ≠ [] := by
        intro b2 hnil
        have := hm b2
        rw [hnil] at this
        simp at this
      by_cases hpa : p a = true
      · cases b with
        | true =>
          rw [rr_cons_pos_true hpa]
          exact hm true
        | false =>
          rw [rr_cons_pos_false hpa]
          cases hm2 : replaceRuns p r true (x :: xs) with
          | nil => exact absurd hm2 (hne true)
          | cons z zs =>
            rw [List.getLast?_cons_cons, ← hm2]
            exact hm true
      · have hpa2 : p a = false := by simpa using hpa
        rw [rr_cons_neg b hpa2]
        cases hm2 : replaceRuns p r false (x :: xs) with
        | nil => exact absurd hm2 (hne false)
        | cons z zs =>
          rw [List.getLast?_cons_cons, ← hm2]
          exact hm false

theorem rr_getLast_or {p : Char → Bool} {r : Char} :
    ∀ (l : List Char) (b : Bool) (d : Char),
      (replaceRuns p r b l).getLast? = some d → d = r ∨ l.getLast? = some d := by
  intro l
  induction l with
  | nil => intro b d h; simp [replaceRuns] at h
  | cons a t ih =>
    intro b d h
    by_cases hpa : p a = true
    · cases b with
      | true =>
        rw [rr_cons_pos_true hpa] at h
        rcases ih true d h with h1 | h2
        · exact Or.inl h1
        · cases t with
          | nil => simp at h2
          | cons x xs => rw [List.getLast?_cons_cons]; exact Or.inr h2
      | false =>
        rw [rr_cons_pos_false hpa] at h
        cases hm2 : replaceRuns p r true t with
        | nil =>
          rw [hm2] at h
          simp only [List.getLast?_singleton, Option.some.injEq] at h
          exact Or.inl h.symm
        | cons z zs =>
          rw [hm2, List.getLast?_cons_cons, ← hm2] at h
          rcases ih true d h with h1 | h2
          · exact Or.inl h1
          · cases t with
            | nil => simp at h2
            | cons x xs => rw [List.getLast?_cons_cons]; exact Or.inr h2
    · have hpa2 : p a = false := by simpa using hpa
      rw [rr_cons_neg b hpa2] at h
      cases hm2 : replaceRuns p r false t with
      | nil =>
        cases t with
        | nil =>
          rw [hm2] at h
          exact Or.inr h
        | cons x xs => exact absurd hm2 (rr_false_ne_nil x xs)
      | cons z zs =>
        rw [hm2, List.getLast?_cons_cons, ← hm2] at h
        rcases ih false d h with h1 | h2
        · exact Or.inl h1
        · cases t with
          | nil => simp at h2
          | cons x xs => rw [List.getLast?_cons_cons]; exact Or.inr h2

theorem rr_dup {p : Char → Bool} {r : Char} {c : Char} (hc : p c = true) (l2 : List Char) :
    ∀ (l1 : List Char) (b : Bool),
      replaceRuns p r b (l1 ++ c :: c :: l2) = replaceRuns p r b (l1 ++ c :: l2) := by
  intro l1
  induction l1 with
  | nil => intro b; cases b <;> simp [replaceRuns, hc]
  | cons a t ih =>
    intro b
    by_cases hpa : p a = true
    · cases b <;> simp [replaceRuns, hpa, ih]
    · have hpa2 : p a = false := by simpa using hpa
      simp [replaceRuns, hpa2, ih]

theorem dropWhile_head_false {p : Char → Bool} :
    ∀ (l : List Char) (c : Char), (l.dropWhile p).head? = some c → p c = false := by
  intro l
  induction l with
  | nil => intro c h; simp at h
  | cons a t ih =>
    intro c h
    rw [List.dropWhile_cons] at h
    by_cases hpa : p a = true
    · rw [if_pos hpa] at h
      exact ih c h
    · have hpa2 : p a = false := by simpa using hpa
      rw [if_neg (by simp [hpa2])] at h
      simp only [List.head?_cons, Option.some.injEq] at h
      exact h ▸ hpa2

theorem dropWhile_of_head_false {p : Char → Bool} {l : List Char}
    (h : ∀ c, l.head? = some c → p c = false) : l.dropWhile p = l := by
  cases l with
  | nil => rfl
  | cons a t =>
    have := h a rfl
    rw [List.dropWhile_cons, if_neg (by simp [this])]

theorem stripChars_head_false (l : List Char) (c : Char) :
    (stripChars l).head? = some c → isPyWs c = false := by
  intro h
  unfold stripChars at h
  obtain ⟨t, ht⟩ := List.dropWhile_suffix (l := (l.dropWhile isPyWs).reverse) isPyWs
  cases hm : ((l.dropWhile isPyWs).reverse.dropWhile isPyWs).reverse with
  | nil => rw [hm] at h; simp at h
  | cons z zs =>
    rw [hm] at h
    simp only [List.head?_cons, Option.some.injEq] at h
    have hx : (l.dropWhile isPyWs).head? = some z := by
      have h2 : l.dropWhile isPyWs =
          ((l.dropWhile isPyWs).reverse.dropWhile isPyWs).reverse ++ t.reverse := by
        have h3 := congrArg List.reverse ht
        simpa using h3.symm
      rw [h2, hm]
      rfl
    rw [← h]
    exact dropWhile_head_false l z hx

theorem stripChars_getLast_false (l : List Char) (c : Char) :
    (stripChars l).getLast? = some c → isPyWs c = false := by
  intro h
  unfold stripChars at h
  rw [List.getLast?_reverse] at h
  exact dropWhile_head_false _ c h

theorem stripChars_idem (l : List Char) : stripChars (stripChars l) = stripChars l := by
  have h1 : (stripChars l).dropWhile isPyWs = stripChars l :=
    dropWhile_of_head_false (fun c hc => by simpa using stripChars_head_false l c hc)
  have h2 : (stripChars l).reverse.dropWhile isPyWs = (stripChars l).reverse := by
    apply dropWhile_of_head_false
    intro c hc
    rw [List.head?_reverse] at hc
    simpa using stripChars_getLast_false l c hc
  show ((stripChars l |>.dropWhile isPyWs).reverse.dropWhile isPyWs).reverse = stripChars l
  rw [h1, h2, List.reverse_reverse]

theorem sanitize_stripStr (s : String) :
    sanitize_filename (stripStr s) = sanitize_filename s := by
  show String.mk ((sanitizePre (stripChars s.data)).take 200) =
    String.mk ((sanitizePre s.data).take 200)
  unfold sanitizePre
  rw [stripChars_idem]

theorem sanitizePre_head_false (l : List Char) (c : Char) :
    (sanitizePre l).head? = some c → isPyWs c = false := by
  unfold sanitizePre
  intro h
  cases hm1 : replaceRuns isReservedChar '_' false (stripChars l) with
  | nil => rw [hm1] at h; simp [replaceRuns] at h
  | cons a t =>
    rw [hm1, rr_false_head] at h
    have ha : isPyWs a = false := by
      cases hs : stripChars l with
      | nil => rw [hs] at hm1; simp [replaceRuns] at hm1
      | cons a0 t0 =>
        have hhead := rr_false_head (p := isReservedChar) (r := '_') a0 t0
        rw [← hs, hm1] at hhead
        simp only [List.head?_cons, Option.some.injEq] at hhead
        have ha0 : isPyWs a0 = false :=
          stripChars_head_false l a0 (by rw [hs]; rfl)
        rw [hhead]
        by_cases hr : isReservedChar a0 = true
        · simp [hr]
          decide
        · have hr2 : isReservedChar a0 = false := by simpa using hr
          simp [hr2, ha0]
    rw [ha] at h
    simp only [Bool.false_eq_true, if_false, Option.some.injEq] at h
    exact h ▸ ha

theorem sanitizePre_getLast_false (l : List Char) (c : Char) :
    (sanitizePre l).getLast? = some c → isPyWs c = false := by
  unfold sanitizePre
  intro h
  cases hd : (replaceRuns isReservedChar '_' false (stripChars l)).getLast? with
  | none =>
    have hnil : replaceRuns isReservedChar '_' false (stripChars l) = [] := by
      cases hm : replaceRuns isReservedChar '_' false (stripChars l) with
      | nil => rfl
      | cons z zs =>
        rw [hm] at hd
        have hs : (z :: zs).getLast?.isSome := List.getLast?_isSome.mpr (by simp)
        rw [hd] at hs
        simp at hs
    rw [hnil] at h
    simp [replaceRuns] at h
  | some d =>
    have hdws : isPyWs d = false := by
      rcases rr_getLast_or _ _ _ hd with h1 | h2
      · subst h1; decide
      · exact stripChars_getLast_false l d h2
    have := rr_getLast (p := isPyWs) (r := ' ') hdws _ false hd
    rw [this] at h
    simp only [Option.some.injEq] at h
    exact h ▸ hdws

theorem head?_of_front {α : Type} {l1 l2 : List α} {d : α}
    (hp : l1 <+: l2) (h : l1.head? = some d) : l2.head? = some d := by
  obtain ⟨t, rfl⟩ := hp
  cases l1 with
  | nil => simp at h
  | cons a s => simpa using h

/-! ### C9: sanitizer postconditions -/

/-- C9 counterexample: the claim asserts that `sanitize(s)` never has trailing
whitespace, but on the input of 199 letters followed by a space and one more
letter the pre-truncation result is 201 characters long, and the truncation to
200 characters makes the output end in a space. -/
theorem c9_counterexample :
    (sanitize_filename (String.mk (List.replicate 199 'a' ++ [' ', 'b']))).data.getLast? =
      some ' ' ∧ isPyWs ' ' = true := by
  decide

/-- C9 (amended): `sanitize_filename` is a total function whose output has
length at most 200, contains none of the reserved characters, maps every
whitespace character it keeps to a single space with no two adjacent
whitespace characters, has no leading whitespace, and has no trailing
whitespace provided no truncation occurred (the pre-truncation result was at
most 200 characters long); each maximal run of reserved characters collapses
to one underscore and each whitespace run to one space at their respective
pipeline stages. -/
theorem c9_sanitizer_postconditions (s : String) (d : Char) (l1 l2 : List Char) (c : Char) :
    (sanitize_filename s).length ≤ 200 ∧
    (d ∈ (sanitize_filename s).data → isReservedChar d = false) ∧
    (d ∈ (sanitize_filename s).data → isPyWs d = true → d = ' ') ∧
    ((sanitize_filename s).data.head? = some d → isPyWs d = false) ∧
    ((sanitizePre s.data).length ≤ 200 →
      (sanitize_filename s).data.getLast? = some d → isPyWs d = false) ∧
    List.Chain' (fun x y => isPyWs x = false ∨ isPyWs y = false) (sanitize_filename s).data ∧
    (isReservedChar c = true →
      replaceRuns isReservedChar '_' false (l1 ++ c :: c :: l2) =
        replaceRuns isReservedChar '_' false (l1 ++ c :: l2)) ∧
    (isPyWs c = true →
      replaceRuns isPyWs ' ' false (l1 ++ c :: c :: l2) =
        replaceRuns isPyWs ' ' false (l1 ++ c :: l2)) := by
  have hdata : (sanitize_filename s).data = (sanitizePre s.data).take 200 := rfl
  refine ⟨?_, ?_, ?_, ?_, ?_, ?_, ?_, ?_⟩
  · show ((sanitizePre s.data).take 200).length ≤ 200
    rw [List.length_take]
    exact min_le_left _ _
  · intro hd
    rw [hdata] at hd
    have hd2 : d ∈ sanitizePre s.data := List.take_subset 200 _ hd
    unfold sanitizePre at hd2
    rcases mem_replaceRuns_sub _ _ hd2 with h1 | h1
    · subst h1; decide
    · rcases mem_replaceRuns _ _ h1 with h2 | h2
      · exact h2
      · subst h2; decide
  · intro hd hws
    rw [hdata] at hd
    have hd2 : d ∈ sanitizePre s.data := List.take_subset 200 _ hd
    unfold sanitizePre at hd2
    rcases mem_replaceRuns _ _ hd2 with h1 | h1
    · rw [h1] at hws; exact absurd hws (by simp)
    · exact h1
  · intro hh
    rw [hdata] at hh
    exact sanitizePre_head_false s.data d
      (head?_of_front (List.take_prefix 200 _) hh)
  · intro hlen hlast
    rw [hdata, List.take_of_length_le hlen] at hlast
    exact sanitizePre_getLast_false s.data d hlast
  · rw [hdata]
    apply List.Chain'.prefix _ (List.take_prefix 200 _)
    unfold sanitizePre
    exact chain'_replaceRuns false _
  · intro h
    exact rr_dup h l2 l1 false
  · intro h
    exact rr_dup h l2 l1 false

/-- C9 witness: the amended sanitizer postconditions applied at a concrete
input, with each hypothesis discharged concretely. -/
theorem c9_sanitizer_postconditions_witness :
    (sanitize_filename "  a//b  c  ").length ≤ 200 ∧
    isReservedChar 'a' = false ∧
    replaceRuns isReservedChar '_' false (['x'] ++ '/' :: '/' :: ['y']) =
      replaceRuns isReservedChar '_' false (['x'] ++ '/' :: ['y']) ∧
    replaceRuns isPyWs ' ' false (['x'] ++ ' ' :: ' ' :: ['y']) =
      replaceRuns isPyWs ' ' false (['x'] ++ ' ' :: ['y']) := by
  obtain ⟨h1, h2, _, _, _, _, h7, _⟩ :=
    c9_sanitizer_postconditions "  a//b  c  " 'a' ['x'] ['y'] '/'
  obtain ⟨_, _, _, _, _, _, _, h8⟩ :=
    c9_sanitizer_postconditions "  a//b  c  " 'a' ['x'] ['y'] ' '
  exact ⟨h1, h2 (by decide), h7 (by decide), h8 (by decide)⟩

/-! ### Branch equations for the engine -/

theorem processFile_skip {env : Env} {effRel : List String} {absUrl : String}
    {st : RunState} {l : String × String}
    (h : resolveHref env absUrl l.1 ∈ st.done) :
    processFile env effRel absUrl st l = st := by
  unfold processFile
  simp [h]

theorem processFile_capture {env : Env} {effRel : List String} {absUrl : String}
    {st : RunState} {l : String × String} {sug : String}
    (hmem : resolveHref env absUrl l.1 ∉ st.done)
    (hcap : env.capture (resolveHref env absUrl l.1) = some sug) :
    processFile env effRel absUrl st l =
      { st with
          done := resolveHref env absUrl l.1 :: st.done,
          store := resolveHref env absUrl l.1 :: st.done,
          persists := st.persists + 1,
          trace := st.trace ++ [Event.save effRel
            (sanitize_filename (pyOr sug (pyOr l.2 "file")))
            (resolveHref env absUrl l.1)] } := by
  unfold processFile
  simp [hmem, hcap]

theorem processFile_fallback_ok {env : Env} {effRel : List String} {absUrl : String}
    {st : RunState} {l : String × String}
    (hmem : resolveHref env absUrl l.1 ∉ st.done)
    (hcap : env.capture (resolveHref env absUrl l.1) = none)
    (hf : env.fetch (resolveHref env absUrl l.1) = FetchResult.resp true) :
    processFile env effRel absUrl st l =
      { st with
          done := resolveHref env absUrl l.1 :: st.done,
          store := resolveHref env absUrl l.1 :: st.done,
          persists := st.persists + 1,
          trace := st.trace ++ [Event.fallbackNav (resolveHref env absUrl l.1),
            Event.save effRel
              (sanitize_filename (pyOr (env.pathBasename (resolveHref env absUrl l.1))
                (pyOr l.2 "file")))
              (resolveHref env absUrl l.1)] } := by
  unfold processFile
  simp [hmem, hcap, hf]

theorem processFile_fallback_fail {env : Env} {effRel : List String} {absUrl : String}
    {st : RunState} {l : String × String}
    (hmem : resolveHref env absUrl l.1 ∉ st.done)
    (hcap : env.capture (resolveHref env absUrl l.1) = none)
    (hf : env.fetch (resolveHref env absUrl l.1) = FetchResult.err ∨
      env.fetch (resolveHref env absUrl l.1) = FetchResult.noResp ∨
      env.fetch (resolveHref env absUrl l.1) = FetchResult.resp false) :
    processFile env effRel absUrl st l =
      { st with trace := st.trace ++ [Event.fallbackNav (resolveHref env absUrl l.1)] } := by
  unfold processFile
  rcases hf with hf | hf | hf <;> simp [hmem, hcap, hf]

theorem step_eq_nil {cfg : Config} {env : Env} {st : RunState} (h : st.queue = []) :
    step cfg env st = st := by
  unfold step
  rw [h]

theorem step_eq_visited {cfg : Config} {env : Env} {st : RunState} {url : String}
    {rel : List String} {rest : List (String × List String)}
    (h : st.queue = (url, rel) :: rest)
    (hv : resolveHref env (cfg.baseUrl ++ "/") url ∈ st.visited) :
    step cfg env st = { st with queue := rest } := by
  unfold step
  rw [h]
  simp [hv]

theorem step_eq_origin {cfg : Config} {env : Env} {st : RunState} {url : String}
    {rel : List String} {rest : List (String × List String)}
    (h : st.queue = (url, rel) :: rest)
    (hv : resolveHref env (cfg.baseUrl ++ "/") url ∉ st.visited)
    (ho : originReject cfg env (resolveHref env (cfg.baseUrl ++ "/") url)
      (resolveHref env (cfg.baseUrl ++ "/") url) = true) :
    step cfg env st = { st with queue := rest } := by
  unfold step
  rw [h]
  simp [hv, ho]

theorem step_eq_timeout {cfg : Config} {env : Env} {st : RunState} {url : String}
    {rel : List String} {rest : List (String × List String)}
    (h : st.queue = (url, rel) :: rest)
    (hv : resolveHref env (cfg.baseUrl ++ "/") url ∉ st.visited)
    (ho : originReject cfg env (resolveHref env (cfg.baseUrl ++ "/") url)
      (resolveHref env (cfg.baseUrl ++ "/") url) = false)
    (hnav : env.navOk (resolveHref env (cfg.baseUrl ++ "/") url) = false) :
    step cfg env st =
      { st with
          queue := rest,
          trace := st.trace ++
            [Event.navTimeout (resolveHref env (cfg.baseUrl ++ "/") url)] } := by
  unfold step
  rw [h]
  simp [hv, ho, hnav]

theorem step_eq_visit {cfg : Config} {env : Env} {st : RunState} {url : String}
    {rel : List String} {rest : List (String × List String)}
    (h : st.queue = (url, rel) :: rest)
    (hv : resolveHref env (cfg.baseUrl ++ "/") url ∉ st.visited)
    (ho : originReject cfg env (resolveHref env (cfg.baseUrl ++ "/") url)
      (resolveHref env (cfg.baseUrl ++ "/") url) = false)
    (hnav : env.navOk (resolveHref env (cfg.baseUrl ++ "/") url) = true) :
    step cfg env st = visitPage cfg env (resolveHref env (cfg.baseUrl ++ "/") url) rel
      { st with queue := rest } := by
  unfold step
  rw [h]
  simp [hv, ho, hnav]

theorem processFile_queue (env : Env) (e : List String) (a : String) (st : RunState)
    (l : String × String) : (processFile env e a st l).queue = st.queue := by
  by_cases h : resolveHref env a l.1 ∈ st.done
  · rw [processFile_skip h]
  · cases hc : env.capture (resolveHref env a l.1) with
    | some sug => rw [processFile_capture h hc]
    | none =>
      cases hf : env.fetch (resolveHref env a l.1) with
      | err => rw [processFile_fallback_fail h hc (Or.inl hf)]
      | noResp => rw [processFile_fallback_fail h hc (Or.inr (Or.inl hf))]
      | resp ok =>
        cases ok with
        | true => rw [processFile_fallback_ok h hc hf]
        | false => rw [processFile_fallback_fail h hc (Or.inr (Or.inr hf))]

theorem processFile_visited (env : Env) (e : List String) (a : String) (st : RunState)
    (l : String × String) : (processFile env e a st l).visited = st.visited := by
  by_cases h : resolveHref env a l.1 ∈ st.done
  · rw [processFile_skip h]
  · cases hc : env.capture (resolveHref env a l.1) with
    | some sug => rw [processFile_capture h hc]
    | none =>
      cases hf : env.fetch (resolveHref env a l.1) with
      | err => rw [processFile_fallback_fail h hc (Or.inl hf)]
      | noResp => rw [processFile_fallback_fail h hc (Or.inr (Or.inl hf))]
      | resp ok =>
        cases ok with
        | true => rw [processFile_fallback_ok h hc hf]
        | false => rw [processFile_fallback_fail h hc (Or.inr (Or.inr hf))]

theorem foldl_processFile_queue (env : Env) (e : List String) (a : String) :
    ∀ (files : List (String × String)) (st : RunState),
      (files.foldl (processFile env e a) st).queue = st.queue := by
  intro files
  induction files with
  | nil => intro st; rfl
  | cons l t ih =>
    intro st
    rw [List.foldl_cons, ih, processFile_queue]

theorem foldl_processFile_visited (env : Env) (e : List String) (a : String) :
    ∀ (files : List (String × String)) (st : RunState),
      (files.foldl (processFile env e a) st).visited = st.visited := by
  intro files
  induction files with
  | nil => intro st; rfl
  | cons l t ih =>
    intro st
    rw [List.foldl_cons, ih, processFile_visited]

theorem visitPage_queue (cfg : Config) (env : Env) (absUrl : String) (rel : List String)
    (st : RunState) :
    (visitPage cfg env absUrl rel st).queue =
      st.queue ++ childEntries cfg env absUrl (effRelOf env absUrl rel) := by
  unfold visitPage
  rw [foldl_processFile_queue]

theorem visitPage_visited (cfg : Config) (env : Env) (absUrl : String) (rel : List String)
    (st : RunState) :
    (visitPage cfg env absUrl rel st).visited = absUrl :: st.visited := by
  unfold visitPage
  rw [foldl_processFile_visited]

theorem childEntries_mem (cfg : Config) (env : Env) (absUrl : String) (eff : List String)
    (u : String) (pth : List String) (hm : (u, pth) ∈ childEntries cfg env absUrl eff) :
    originReject cfg env absUrl u = false := by
  unfold childEntries at hm
  obtain ⟨fl, hfl, hif⟩ := List.mem_filterMap.mp hm
  by_cases ho : originReject cfg env absUrl (resolveHref env absUrl fl.1) = true
  · rw [if_pos ho] at hif
    cases hif
  · rw [if_neg ho] at hif
    have h3 := Option.some.inj hif
    have h4 : resolveHref env absUrl fl.1 = u := congrArg Prod.fst h3
    rw [← h4]
    simpa using ho

theorem saveCount_append (t1 t2 : List Event) :
    saveCount (t1 ++ t2) = saveCount t1 + saveCount t2 := by
  induction t1 with
  | nil => simp [saveCount]
  | cons e t ih => cases e <;> simp [saveCount, ih, Nat.add_assoc]

theorem navOkCount_append (t1 t2 : List Event) (u : String) :
    navOkCount (t1 ++ t2) u = navOkCount t1 u + navOkCount t2 u := by
  induction t1 with
  | nil => simp [navOkCount]
  | cons e t ih => cases e <;> simp [navOkCount, ih, Nat.add_assoc]

theorem savedUrls_append (t1 t2 : List Event) :
    savedUrls (t1 ++ t2) = savedUrls t1 ++ savedUrls t2 := by
  induction t1 with
  | nil => simp [savedUrls]
  | cons e t ih => cases e <;> simp [savedUrls, ih]

theorem filename_pref_eq (sug dl txt : String) :
    sanitize_filename (pyOr sug (pyOr (pyOr dl (stripStr txt)) "file")) =
      (if sug ≠ "" then sanitize_filename sug
       else if dl ≠ "" then sanitize_filename dl
       else if stripStr txt ≠ "" then sanitize_filename txt
       else "file") := by
  by_cases hs : sug = ""
  · by_cases hd : dl = ""
    · by_cases ht : stripStr txt = ""
      · simp [pyOr, hs, hd, ht]
        decide
      · simp [pyOr, hs, hd, ht]
        exact sanitize_stripStr txt
    · simp [pyOr, hs, hd]
  · simp [pyOr, hs]

/-! ### C10: origin predicate fail-open behaviour -/

/-- C10: the origin predicate returns true for every URL when the same-origin
restriction is disabled; when enabled it returns true exactly when the
candidate URL's parsed netloc equals the base URL's parsed netloc, and a
candidate whose parsing raises returns true (fail open), so no candidate is
silently dropped on a malformed URL. -/
theorem c10_origin_fail_open (cfg : Config) (env : Env) (u base a b : String) :
    (cfg.restrictToDomain = false → same_origin cfg env u base = true) ∧
    (cfg.restrictToDomain = true → env.parseNetloc u = some a →
      env.parseNetloc base = some b → (same_origin cfg env u base = true ↔ a = b)) ∧
    (cfg.restrictToDomain = true → env.parseNetloc u = none →
      same_origin cfg env u base = true) := by
  refine ⟨fun h => by simp [same_origin, h], fun h hu hb => by simp [same_origin, h, hu, hb],
    fun h hu => by cases hb2 : env.parseNetloc base <;> simp [same_origin, h, hu, hb2]⟩

/-- C10 witness: the fail-open behaviour at concrete inputs: restriction off,
matching question on two parsed netlocs, and a parse failure. -/
theorem c10_origin_fail_open_witness :
    same_origin cfgOpen envCross "http://a/x" "http://h" = true ∧
    (same_origin cfgStrict envCross "http://evil/f" "http://h" = true ↔ "evil" = "h") ∧
    same_origin cfgStrict baseEnv "zzz" "http://h" = true := by
  refine ⟨(c10_origin_fail_open cfgOpen envCross "http://a/x" "http://h" "x" "y").1 rfl,
    (c10_origin_fail_open cfgStrict envCross "http://evil/f" "http://h" "evil" "h").2.1
      rfl (by decide) (by decide),
    (c10_origin_fail_open cfgStrict baseEnv "zzz" "http://h" "x" "y").2.2 rfl rfl⟩

/-! ### C5: failed-download atomicity -/

/-- C5: when the capture attempt times out and the fallback fetch then fails
(an exception during the fetch, a missing response, or a non-success status),
the engine adds nothing to the DownloadedSet, does not re-persist the store,
records no file save for that reference, and leaves the queue untouched so
the crawl continues with the next file reference. -/
theorem c5_failed_download_atomicity (env : Env) (effRel : List String) (absUrl : String)
    (st : RunState) (href text : String)
    (hcap : env.capture (resolveHref env absUrl href) = none)
    (hf : env.fetch (resolveHref env absUrl href) = FetchResult.err ∨
      env.fetch (resolveHref env absUrl href) = FetchResult.noResp ∨
      env.fetch (resolveHref env absUrl href) = FetchResult.resp false) :
    (processFile env effRel absUrl st (href, text)).done = st.done ∧
    (processFile env effRel absUrl st (href, text)).store = st.store ∧
    (processFile env effRel absUrl st (href, text)).persists = st.persists ∧
    saveCount (processFile env effRel absUrl st (href, text)).trace = saveCount st.trace ∧
    (processFile env effRel absUrl st (href, text)).queue = st.queue := by
  by_cases hmem : resolveHref env absUrl href ∈ st.done
  · rw [processFile_skip (l := (href, text)) hmem]
    exact ⟨rfl, rfl, rfl, rfl, rfl⟩
  · rw [processFile_fallback_fail (l := (href, text)) hmem hcap hf]
    refine ⟨rfl, rfl, rfl, ?_, rfl⟩
    show saveCount (st.trace ++ [Event.fallbackNav (resolveHref env absUrl href)]) =
      saveCount st.trace
    rw [saveCount_append]
    rfl

/-- C5 witness: the atomicity of a failed download at a concrete input whose
capture times out and whose fallback fetch returns a non-success status. -/
theorem c5_failed_download_atomicity_witness :
    envFailFetch.capture "http://h/f" = none ∧
    envFailFetch.fetch "http://h/f" = FetchResult.resp false ∧
    (processFile envFailFetch [] "http://h/r" (initState "s" []) ("http://h/f", "T")).done =
      (initState "s" []).done ∧
    (processFile envFailFetch [] "http://h/r" (initState "s" []) ("http://h/f", "T")).store =
      (initState "s" []).store := by
  have h := c5_failed_download_atomicity envFailFetch [] "http://h/r" (initState "s" [])
    "http://h/f" "T" rfl (Or.inr (Or.inr rfl))
  exact ⟨rfl, rfl, h.1, h.2.1⟩

/-! ### C7: file links bypass the origin filter -/

/-- C7: the same-origin restriction is never applied to file links: even with
the restriction enabled and the file URL's netloc different from the
configured base URL's netloc, a file link not yet in the DownloadedSet is
downloaded — the capture strategy saves and records it, and on capture
timeout a successful direct fetch saves and records it. -/
theorem c7_files_bypass_origin (cfg : Config) (env : Env) (effRel : List String)
    (absUrl : String) (st : RunState) (href text a b : String)
    (hr : cfg.restrictToDomain = true)
    (ha : env.parseNetloc (resolveHref env absUrl href) = some a)
    (hb : env.parseNetloc cfg.baseUrl = some b)
    (hab : a ≠ b)
    (hmem : resolveHref env absUrl href ∉ st.done) :
    (∀ sug, env.capture (resolveHref env absUrl href) = some sug →
      resolveHref env absUrl href ∈ (processFile env effRel absUrl st (href, text)).done ∧
      (processFile env effRel absUrl st (href, text)).trace =
        st.trace ++ [Event.save effRel (sanitize_filename (pyOr sug (pyOr text "file")))
          (resolveHref env absUrl href)]) ∧
    (env.capture (resolveHref env absUrl href) = none →
      env.fetch (resolveHref env absUrl href) = FetchResult.resp true →
      resolveHref env absUrl href ∈ (processFile env effRel absUrl st (href, text)).done ∧
      (processFile env effRel absUrl st (href, text)).trace =
        st.trace ++ [Event.fallbackNav (resolveHref env absUrl href),
          Event.save effRel
            (sanitize_filename (pyOr (env.pathBasename (resolveHref env absUrl href))
              (pyOr text "file")))
            (resolveHref env absUrl href)]) := by
  constructor
  · intro sug hcap
    rw [processFile_capture (l := (href, text)) hmem hcap]
    exact ⟨List.mem_cons_self _ _, rfl⟩
  · intro hcap hf
    rw [processFile_fallback_ok (l := (href, text)) hmem hcap hf]
    exact ⟨List.mem_cons_self _ _, rfl⟩

/-- C7 witness: with the restriction enabled, a cross-origin file URL is
still downloaded and recorded. -/
theorem c7_files_bypass_origin_witness :
    "http://evil/f" ∈
      (processFile envCross [] "http://h/r" (initState "s" []) ("http://evil/f", "T")).done := by
  have h := c7_files_bypass_origin cfgStrict envCross [] "http://h/r" (initState "s" [])
    "http://evil/f" "T" "evil" "h" rfl (by decide) (by decide) (by decide)
    (List.not_mem_nil _)
  exact (h.1 "x.bin" (by decide)).1

/-! ### C8: capture-strategy save semantics -/

/-- C8 counterexample: a file link carrying a download attribute different
from its display text, downloaded through the capture strategy with an empty
suggested filename, is saved under the download attribute, not under the
display text the claim prescribes. -/
theorem c8_counterexample :
    (step cfgOpen envAttrName (initState "http://h/r" [])).trace =
      [Event.nav "http://h/r", Event.save [] "report.pdf" "http://h/f"] ∧
    specC8Filename "" "Quarterly Report" = "Quarterly Report" ∧
    "report.pdf" ≠ "Quarterly Report" := by
  refine ⟨by decide, by decide, by decide⟩

/-- C8 (amended): when the download-completion signal arrives within the
timeout, the file is committed under the effective local path, the URL is
inserted into the DownloadedSet and the store is persisted immediately; the
filename is the sanitized browser-suggested name when nonempty, else the
link's download attribute, else its display text (each sanitized), else the
literal string "file" — the display text is used only when the download
attribute is absent. -/
theorem c8_capture_save_semantics (env : Env) (effRel : List String) (absUrl : String)
    (st : RunState) (href sug dl txt : String)
    (hmem : resolveHref env absUrl href ∉ st.done)
    (hcap : env.capture (resolveHref env absUrl href) = some sug) :
    processFile env effRel absUrl st (href, pyOr dl (stripStr txt)) =
      { st with
          done := resolveHref env absUrl href :: st.done,
          store := resolveHref env absUrl href :: st.done,
          persists := st.persists + 1,
          trace := st.trace ++ [Event.save effRel
            (if sug ≠ "" then sanitize_filename sug
             else if dl ≠ "" then sanitize_filename dl
             else if stripStr txt ≠ "" then sanitize_filename txt
             else "file")
            (resolveHref env absUrl href)] } ∧
    (collect_links [] [{ href := href, innerText := txt, downloadAttr := dl }]).2 =
      (if href = "" then [] else [(href, pyOr dl (stripStr txt))]) := by
  constructor
  · rw [processFile_capture (l := (href, pyOr dl (stripStr txt))) hmem hcap]
    rw [show ((href, pyOr dl (stripStr txt)) : String × String).2 = pyOr dl (stripStr txt) from rfl,
      filename_pref_eq]
  · by_cases h : href = "" <;> simp [collect_links, h]

/-- C8 witness: the amended capture-save semantics at the concrete input of
the counterexample, showing the commit and the download-attribute filename. -/
theorem c8_capture_save_semantics_witness :
    processFile envAttrName [] "http://h/r" (initState "s" [])
        ("http://h/f", pyOr "report.pdf" (stripStr "Quarterly Report")) =
      { initState "s" [] with
          done := ["http://h/f"],
          store := ["http://h/f"],
          persists := 1,
          trace := [Event.save [] "report.pdf" "http://h/f"] } := by
  have h := (c8_capture_save_semantics envAttrName [] "http://h/r" (initState "s" [])
    "http://h/f" "" "report.pdf" "Quarterly Report" (List.not_mem_nil _) (by decide)).1
  rw [h]
  decide

/-! ### C6: origin containment for folder enqueueing -/

/-- C6: with the same-origin restriction enabled and a nonempty configured
BASE_URL, a folder link whose resolved URL parses to a netloc different from
the base URL's netloc is never appended to the frontier: every entry of the
queue after a step that carries such a URL was already in the queue before
the step. -/
theorem c6_origin_containment (cfg : Config) (env : Env) (st : RunState)
    (u : String) (pth : List String) (a b : String)
    (hr : cfg.restrictToDomain = true) (hbase : cfg.baseUrl ≠ "")
    (ha : env.parseNetloc u = some a) (hb : env.parseNetloc cfg.baseUrl = some b)
    (hab : a ≠ b) (hm : (u, pth) ∈ (step cfg env st).queue) :
    (u, pth) ∈ st.queue := by
  rcases hq : st.queue with _ | ⟨⟨url, rel⟩, rest⟩
  · rw [step_eq_nil hq, hq] at hm
    exact hm
  · by_cases hv : resolveHref env (cfg.baseUrl ++ "/") url ∈ st.visited
    · rw [step_eq_visited hq hv] at hm
      exact List.mem_cons_of_mem _ hm
    · by_cases ho : originReject cfg env (resolveHref env (cfg.baseUrl ++ "/") url)
        (resolveHref env (cfg.baseUrl ++ "/") url) = true
      · rw [step_eq_origin hq hv ho] at hm
        exact List.mem_cons_of_mem _ hm
      · have ho2 : originReject cfg env (resolveHref env (cfg.baseUrl ++ "/") url)
            (resolveHref env (cfg.baseUrl ++ "/") url) = false := by simpa using ho
        by_cases hnav : env.navOk (resolveHref env (cfg.baseUrl ++ "/") url) = true
        · rw [step_eq_visit hq hv ho2 hnav, visitPage_queue] at hm
          rcases List.mem_append.mp hm with h1 | h1
          · exact List.mem_cons_of_mem _ h1
          · exfalso
            have hor := childEntries_mem cfg env _ _ u pth h1
            unfold originReject at hor
            rw [hr] at hor
            simp only [Bool.true_and, Bool.not_eq_false'] at hor
            unfold same_origin at hor
            rw [hr] at hor
            simp only [if_true] at hor
            unfold pyOr at hor
            rw [if_neg hbase, ha, hb] at hor
            simp only [beq_iff_eq] at hor
            exact hab hor
        · have hnav2 : env.navOk (resolveHref env (cfg.baseUrl ++ "/") url) = false := by
            simpa using hnav
          rw [step_eq_timeout hq hv ho2 hnav2] at hm
          exact List.mem_cons_of_mem _ hm

/-- C6 witness: with the restriction enabled, a cross-origin entry found in
the queue after a step is traced back to the pre-step queue. -/
theorem c6_origin_containment_witness :
    ("http://evil/f", ["E"]) ∈
      ([("http://h/r", []), ("http://evil/f", ["E"])] : List (String × List String)) :=
  c6_origin_containment cfgStrict envCross
    { initState "http://h/r" [] with
        queue := [("http://h/r", []), ("http://evil/f", ["E"])] }
    "http://evil/f" ["E"] "evil" "h" rfl (by decide) (by decide) (by decide) (by decide)
    (by decide)

/-! ### C3: visited-set and navigation uniqueness -/

theorem processFile_cases (env : Env) (e : List String) (a : String) (st : RunState)
    (l : String × String) :
    processFile env e a st l = st ∨
    (∃ fname,
      processFile env e a st l =
        { st with done := resolveHref env a l.1 :: st.done,
                  store := resolveHref env a l.1 :: st.done,
                  persists := st.persists + 1,
                  trace := st.trace ++ [Event.save e fname (resolveHref env a l.1)] } ∧
      resolveHref env a l.1 ∉ st.done) ∨
    (∃ fname,
      processFile env e a st l =
        { st with done := resolveHref env a l.1 :: st.done,
                  store := resolveHref env a l.1 :: st.done,
                  persists := st.persists + 1,
                  trace := st.trace ++ [Event.fallbackNav (resolveHref env a l.1),
                    Event.save e fname (resolveHref env a l.1)] } ∧
      resolveHref env a l.1 ∉ st.done) ∨
    processFile env e a st l =
      { st with trace := st.trace ++ [Event.fallbackNav (resolveHref env a l.1)] } := by
  by_cases h : resolveHref env a l.1 ∈ st.done
  · exact Or.inl (processFile_skip h)
  · cases hc : env.capture (resolveHref env a l.1) with
    | some sug =>
      exact Or.inr (Or.inl ⟨_, processFile_capture h hc, h⟩)
    | none =>
      cases hf : env.fetch (resolveHref env a l.1) with
      | err => exact Or.inr (Or.inr (Or.inr (processFile_fallback_fail h hc (Or.inl hf))))
      | noResp =>
        exact Or.inr (Or.inr (Or.inr (processFile_fallback_fail h hc (Or.inr (Or.inl hf)))))
      | resp ok =>
        cases ok with
        | true => exact Or.inr (Or.inr (Or.inl ⟨_, processFile_fallback_ok h hc hf, h⟩))
        | false =>
          exact Or.inr (Or.inr (Or.inr (processFile_fallback_fail h hc (Or.inr (Or.inr hf)))))

theorem foldl_preserve {env : Env} {e : List String} {a : String} {P : RunState → Prop}
    (hP : ∀ st l, P st → P (processFile env e a st l)) :
    ∀ (files : List (String × String)) (st : RunState),
      P st → P (files.foldl (processFile env e a) st) := by
  intro files
  induction files with
  | nil => intro st h; exact h
  | cons l t ih =>
    intro st h
    rw [List.foldl_cons]
    exact ih _ (hP st l h)

theorem processFile_visitedInv (env : Env) (e : List String) (a : String) (st : RunState)
    (l : String × String) (h : VisitedInv st) : VisitedInv (processFile env e a st l) := by
  rcases processFile_cases env e a st l with hc | ⟨f, hc, _⟩ | ⟨f, hc, _⟩ | hc <;> rw [hc]
  · exact h
  · refine ⟨h.1, fun u => ?_⟩
    rw [navOkCount_append,
      show navOkCount [Event.save e f (resolveHref env a l.1)] u = 0 from rfl,
      Nat.add_zero]
    exact h.2 u
  · refine ⟨h.1, fun u => ?_⟩
    rw [navOkCount_append,
      show navOkCount [Event.fallbackNav (resolveHref env a l.1),
        Event.save e f (resolveHref env a l.1)] u = 0 from rfl,
      Nat.add_zero]
    exact h.2 u
  · refine ⟨h.1, fun u => ?_⟩
    rw [navOkCount_append,
      show navOkCount [Event.fallbackNav (resolveHref env a l.1)] u = 0 from rfl,
      Nat.add_zero]
    exact h.2 u

theorem step_visitedInv (cfg : Config) (env : Env) (st : RunState) (h : VisitedInv st) :
    VisitedInv (step cfg env st) := by
  rcases hq : st.queue with _ | ⟨⟨url, rel⟩, rest⟩
  · rw [step_eq_nil hq]; exact h
  · by_cases hv : resolveHref env (cfg.baseUrl ++ "/") url ∈ st.visited
    · rw [step_eq_visited hq hv]; exact h
    · by_cases ho : originReject cfg env (resolveHref env (cfg.baseUrl ++ "/") url)
        (resolveHref env (cfg.baseUrl ++ "/") url) = true
      · rw [step_eq_origin hq hv ho]; exact h
      · have ho2 : originReject cfg env (resolveHref env (cfg.baseUrl ++ "/") url)
            (resolveHref env (cfg.baseUrl ++ "/") url) = false := by simpa using ho
        by_cases hnav : env.navOk (resolveHref env (cfg.baseUrl ++ "/") url) = true
        · rw [step_eq_visit hq hv ho2 hnav]
          unfold visitPage
          apply foldl_preserve (fun st2 l => processFile_visitedInv env _ _ st2 l)
          refine ⟨List.nodup_cons.mpr ⟨hv, h.1⟩, fun u => ?_⟩
          show navOkCount (st.trace ++ [Event.nav (resolveHref env (cfg.baseUrl ++ "/") url)]) u =
            if u ∈ resolveHref env (cfg.baseUrl ++ "/") url :: st.visited then 1 else 0
          rw [navOkCount_append, h.2 u]
          show (if u ∈ st.visited then 1 else 0) +
              ((if resolveHref env (cfg.baseUrl ++ "/") url = u then 1 else 0) + 0) =
            if u ∈ resolveHref env (cfg.baseUrl ++ "/") url :: st.visited then 1 else 0
          by_cases hu : u = resolveHref env (cfg.baseUrl ++ "/") url
          · subst hu
            rw [if_neg hv, if_pos rfl, if_pos (List.mem_cons_self _ _)]
          · rw [if_neg (fun hh => hu (Eq.symm hh))]
            by_cases hmem : u ∈ st.visited
            · rw [if_pos hmem, if_pos (List.mem_cons_of_mem _ hmem)]
            · rw [if_neg hmem, if_neg (fun hcc => by
                rcases List.mem_cons.mp hcc with h1 | h1
                · exact hu h1
                · exact hmem h1)]
        · have hnav2 : env.navOk (resolveHref env (cfg.baseUrl ++ "/") url) = false := by
            simpa using hnav
          rw [step_eq_timeout hq hv ho2 hnav2]
          refine ⟨h.1, fun u => ?_⟩
          rw [navOkCount_append,
            show navOkCount [Event.navTimeout (resolveHref env (cfg.baseUrl ++ "/") url)] u = 0
              from rfl,
            Nat.add_zero]
          exact h.2 u

theorem crawl_visitedInv (cfg : Config) (env : Env) :
    ∀ (n : Nat) (st : RunState), VisitedInv st → VisitedInv (crawl cfg env n st) := by
  intro n
  induction n with
  | zero => intro st h; exact h
  | succ m ih =>
    intro st h
    exact ih _ (step_visitedInv cfg env st h)

/-- C3 counterexample: a run in which the same folder URL is linked twice and
its navigation times out: the timed-out entry is not marked visited, so the
driver issues a second page navigation to the same resolved absolute URL
within one run, contradicting the claim. -/
theorem c3_counterexample :
    navIssuedCount (crawl cfgOpen envDupNav 4 (initState "http://h/r" [])).trace
      "http://h/x" = 2 := by
  decide

/-- C3 (amended): the visited set acquires each URL at most once per run
(it stays duplicate-free), and the driver performs at most one successful
frontier navigation per URL; however a frontier entry whose navigation times
out is not marked visited, so an equal URL popped later is navigated again,
and the fallback goto on a file URL is likewise not tracked by the visited
set. -/
theorem c3_no_duplicate_successful_navigations (cfg : Config) (env : Env) (n : Nat)
    (start : String) (d0 : List String) (u : String) :
    (crawl cfg env n (initState start d0)).visited.Nodup ∧
    navOkCount (crawl cfg env n (initState start d0)).trace u ≤ 1 := by
  have h := crawl_visitedInv cfg env n (initState start d0)
    ⟨List.nodup_nil, fun u2 => by simp [navOkCount, initState]⟩
  refine ⟨h.1, ?_⟩
  rw [h.2 u]
  by_cases hmem : u ∈ (crawl cfg env n (initState start d0)).visited
  · rw [if_pos hmem]
  · rw [if_neg hmem]
    omega

/-! ### C4: commit durability -/

theorem processFile_done_mono (env : Env) (e : List String) (a : String) (st : RunState)
    (l : String × String) : st.done ⊆ (processFile env e a st l).done := by
  rcases processFile_cases env e a st l with hc | ⟨f, hc, _⟩ | ⟨f, hc, _⟩ | hc <;> rw [hc]
  · exact fun x hx => hx
  · exact List.subset_cons_self _ _
  · exact List.subset_cons_self _ _
  · exact fun x hx => hx

theorem step_done_mono (cfg : Config) (env : Env) (st : RunState) :
    st.done ⊆ (step cfg env st).done := by
  rcases hq : st.queue with _ | ⟨⟨url, rel⟩, rest⟩
  · rw [step_eq_nil hq]
    exact fun x hx => hx
  · by_cases hv : resolveHref env (cfg.baseUrl ++ "/") url ∈ st.visited
    · rw [step_eq_visited hq hv]
      exact fun x hx => hx
    · by_cases ho : originReject cfg env (resolveHref env (cfg.baseUrl ++ "/") url)
        (resolveHref env (cfg.baseUrl ++ "/") url) = true
      · rw [step_eq_origin hq hv ho]
        exact fun x hx => hx
      · have ho2 : originReject cfg env (resolveHref env (cfg.baseUrl ++ "/") url)
            (resolveHref env (cfg.baseUrl ++ "/") url) = false := by simpa using ho
        by_cases hnav : env.navOk (resolveHref env (cfg.baseUrl ++ "/") url) = true
        · rw [step_eq_visit hq hv ho2 hnav]
          unfold visitPage
          exact foldl_preserve (P := fun s => st.done ⊆ s.done)
            (fun st2 l h => h.trans (processFile_done_mono env _ _ st2 l)) _ _
            (fun x hx => hx)
        · have hnav2 : env.navOk (resolveHref env (cfg.baseUrl ++ "/") url) = false := by
            simpa using hnav
          rw [step_eq_timeout hq hv ho2 hnav2]
          exact fun x hx => hx

theorem crawl_done_mono_of (cfg : Config) (env : Env) :
    ∀ (n : Nat) (st : RunState), st.done ⊆ (crawl cfg env n st).done := by
  intro n
  induction n with
  | zero => intro st; exact fun x hx => hx
  | succ m ih =>
    intro st
    exact (step_done_mono cfg env st).trans (ih (step cfg env st))

theorem crawl_add (cfg : Config) (env : Env) :
    ∀ (a b : Nat) (st : RunState), crawl cfg env (a + b) st = crawl cfg env b (crawl cfg env a st) := by
  intro a
  induction a with
  | zero => intro b st; rw [Nat.zero_add]; rfl
  | succ a2 ih =>
    intro b st
    rw [show a2 + 1 + b = (a2 + b) + 1 from by omega]
    show crawl cfg env (a2 + b) (step cfg env st) = _
    rw [ih b (step cfg env st)]
    rfl

theorem crawl_done_mono_fuel (cfg : Config) (env : Env) (st : RunState) {n m : Nat}
    (h : n ≤ m) : (crawl cfg env n st).done ⊆ (crawl cfg env m st).done := by
  have h2 : n + (m - n) = m := by omega
  rw [← h2, crawl_add]
  exact crawl_done_mono_of cfg env (m - n) _

/-- Invariant behind the durability contract: the persisted store always
holds exactly the in-memory DownloadedSet, the loaded set is never shrunk,
and every URL with a completed save event is in the set. -/
def StoreInv (d0 : List String) (st : RunState) : Prop :=
  st.store = st.done ∧ d0 ⊆ st.done ∧ ∀ u, u ∈ savedUrls st.trace → u ∈ st.done

theorem processFile_storeInv (env : Env) (e : List String) (a : String) (st : RunState)
    (l : String × String) (d0 : List String) (h : StoreInv d0 st) :
    StoreInv d0 (processFile env e a st l) := by
  rcases processFile_cases env e a st l with hc | ⟨f, hc, _⟩ | ⟨f, hc, _⟩ | hc <;> rw [hc]
  · exact h
  · refine ⟨rfl, h.2.1.trans (List.subset_cons_self _ _), fun u hu => ?_⟩
    rw [show savedUrls (st.trace ++ [Event.save e f (resolveHref env a l.1)]) =
      savedUrls st.trace ++ [resolveHref env a l.1] from savedUrls_append _ _] at hu
    rcases List.mem_append.mp hu with h1 | h1
    · exact List.mem_cons_of_mem _ (h.2.2 u h1)
    · rw [List.mem_singleton.mp h1]
      exact List.mem_cons_self _ _
  · refine ⟨rfl, h.2.1.trans (List.subset_cons_self _ _), fun u hu => ?_⟩
    rw [show savedUrls (st.trace ++ [Event.fallbackNav (resolveHref env a l.1),
      Event.save e f (resolveHref env a l.1)]) =
      savedUrls st.trace ++ [resolveHref env a l.1] from savedUrls_append _ _] at hu
    rcases List.mem_append.mp hu with h1 | h1
    · exact List.mem_cons_of_mem _ (h.2.2 u h1)
    · rw [List.mem_singleton.mp h1]
      exact List.mem_cons_self _ _
  · refine ⟨h.1, h.2.1, fun u hu => ?_⟩
    rw [show savedUrls (st.trace ++ [Event.fallbackNav (resolveHref env a l.1)]) =
      savedUrls st.trace ++ [] from savedUrls_append _ _, List.append_nil] at hu
    exact h.2.2 u hu

theorem step_storeInv (cfg : Config) (env : Env) (st : RunState) (d0 : List String)
    (h : StoreInv d0 st) : StoreInv d0 (step cfg env st) := by
  rcases hq : st.queue with _ | ⟨⟨url, rel⟩, rest⟩
  · rw [step_eq_nil hq]; exact h
  · by_cases hv : resolveHref env (cfg.baseUrl ++ "/") url ∈ st.visited
    · rw [step_eq_visited hq hv]; exact h
    · by_cases ho : originReject cfg env (resolveHref env (cfg.baseUrl ++ "/") url)
        (resolveHref env (cfg.baseUrl ++ "/") url) = true
      · rw [step_eq_origin hq hv ho]; exact h
      · have ho2 : originReject cfg env (resolveHref env (cfg.baseUrl ++ "/") url)
            (resolveHref env (cfg.baseUrl ++ "/") url) = false := by simpa using ho
        by_cases hnav : env.navOk (resolveHref env (cfg.baseUrl ++ "/") url) = true
        · rw [step_eq_visit hq hv ho2 hnav]
          unfold visitPage
          apply foldl_preserve (fun st2 l h2 => processFile_storeInv env _ _ st2 l d0 h2)
          refine ⟨h.1, h.2.1, fun u hu => ?_⟩
          rw [show savedUrls (st.trace ++ [Event.nav (resolveHref env (cfg.baseUrl ++ "/") url)])
            = savedUrls st.trace ++ [] from savedUrls_append _ _, List.append_nil] at hu
          exact h.2.2 u hu
        · have hnav2 : env.navOk (resolveHref env (cfg.baseUrl ++ "/") url) = false := by
            simpa using hnav
          rw [step_eq_timeout hq hv ho2 hnav2]
          refine ⟨h.1, h.2.1, fun u hu => ?_⟩
          rw [show savedUrls (st.trace ++
            [Event.navTimeout (resolveHref env (cfg.baseUrl ++ "/") url)])
            = savedUrls st.trace ++ [] from savedUrls_append _ _, List.append_nil] at hu
          exact h.2.2 u hu

theorem crawl_storeInv (cfg : Config) (env : Env) (d0 : List String) :
    ∀ (n : Nat) (st : RunState), StoreInv d0 st → StoreInv d0 (crawl cfg env n st) := by
  intro n
  induction n with
  | zero => intro st h; exact h
  | succ m ih =>
    intro st h
    exact ih _ (step_storeInv cfg env st d0 h)

/-- C4: the DownloadedSet is loaded exactly once at engine start; at every
observable point of the run the persisted store equals the in-memory set, so
the store is re-persisted synchronously with every insert and before the
next file reference is processed; the loaded set is never shrunk and no URL
is ever removed as the fuel grows; every URL with a completed save event is
in the persisted store; and processing any single file reference preserves
store-equals-set. -/
theorem c4_commit_durability (cfg : Config) (env : Env) (start : String) (d0 : List String)
    (n m : Nat) (u : String) (e : List String) (a2 : String) (st2 : RunState)
    (l : String × String) (hnm : n ≤ m)
    (hu : u ∈ savedUrls (crawl cfg env n (initState start d0)).trace)
    (hsd : st2.store = st2.done) :
    (initState start d0).done = d0 ∧
    (crawl cfg env n (initState start d0)).store =
      (crawl cfg env n (initState start d0)).done ∧
    d0 ⊆ (crawl cfg env n (initState start d0)).done ∧
    u ∈ (crawl cfg env n (initState start d0)).store ∧
    (crawl cfg env n (initState start d0)).done ⊆
      (crawl cfg env m (initState start d0)).done ∧
    (processFile env e a2 st2 l).store = (processFile env e a2 st2 l).done := by
  have hinv := crawl_storeInv cfg env d0 n (initState start d0)
    ⟨rfl, fun x hx => hx, fun u2 hu2 => by simp [savedUrls, initState] at hu2⟩
  refine ⟨rfl, hinv.1, hinv.2.1, ?_, crawl_done_mono_fuel cfg env _ hnm, ?_⟩
  · rw [hinv.1]
    exact hinv.2.2 u hu
  · rcases processFile_cases env e a2 st2 l with hc | ⟨f, hc, _⟩ | ⟨f, hc, _⟩ | hc <;>
      rw [hc] <;> exact hsd

/-- C4 witness: the durability invariants at a concrete one-page, one-file
run whose capture succeeds. -/
theorem c4_commit_durability_witness :
    "http://h/f" ∈ (crawl cfgOpen envOneFile 1 (initState "http://h/r" [])).store ∧
    (crawl cfgOpen envOneFile 1 (initState "http://h/r" [])).store =
      (crawl cfgOpen envOneFile 1 (initState "http://h/r" [])).done := by
  have h := c4_commit_durability cfgOpen envOneFile "http://h/r" [] 1 2 "http://h/f"
    [] "x" (initState "y" []) ("z", "t") (by omega) (by decide) rfl
  exact ⟨h.2.2.2.1, h.2.1⟩

/-! ### C2: path fidelity -/

theorem c2_chain_step1 (A B C : String) (hA : stripStr A ≠ "") :
    step cfgOpen (chainEnv A B C) (initState "http://h/r" []) =
      { queue := [("http://h/a", [sanitize_filename A])], visited := ["http://h/r"],
        done := [], store := [], persists := 0, trace := [Event.nav "http://h/r"] } := by
  refine Eq.trans (step_eq_visit rfl (List.not_mem_nil _) rfl rfl) ?_
  unfold visitPage childEntries effRelOf
  simp [collect_links, get_current_folder_name, chainEnv, baseEnv, cfgOpen,
    originReject, resolveHref, startsWithHttp, pyOr, hA, sanitize_stripStr,
    show stripStr "" = "" from rfl, initState]

theorem c2_chain_step2 (A B C : String) (hB : stripStr B ≠ "") :
    step cfgOpen (chainEnv A B C)
      { queue := [("http://h/a", [sanitize_filename A])], visited := ["http://h/r"],
        done := [], store := [], persists := 0, trace := [Event.nav "http://h/r"] } =
      { queue := [("http://h/b", [sanitize_filename A, sanitize_filename B])],
        visited := ["http://h/a", "http://h/r"], done := [], store := [], persists := 0,
        trace := [Event.nav "http://h/r", Event.nav "http://h/a"] } := by
  refine Eq.trans (step_eq_visit rfl
      (show ("http://h/a" : String) ∉ ["http://h/r"] from by decide) rfl rfl) ?_
  unfold visitPage childEntries effRelOf
  simp [collect_links, get_current_folder_name, chainEnv, baseEnv, cfgOpen,
    originReject, resolveHref, startsWithHttp, pyOr, hB, sanitize_stripStr,
    show stripStr "" = "" from rfl]

theorem c2_chain_step3 (A B C : String) (hC : stripStr C ≠ "") :
    step cfgOpen (chainEnv A B C)
      { queue := [("http://h/b", [sanitize_filename A, sanitize_filename B])],
        visited := ["http://h/a", "http://h/r"], done := [], store := [], persists := 0,
        trace := [Event.nav "http://h/r", Event.nav "http://h/a"] } =
      { queue := [("http://h/c",
          [sanitize_filename A, sanitize_filename B, sanitize_filename C])],
        visited := ["http://h/b", "http://h/a", "http://h/r"], done := [], store := [],
        persists := 0,
        trace := [Event.nav "http://h/r", Event.nav "http://h/a", Event.nav "http://h/b"] } := by
  refine Eq.trans (step_eq_visit rfl
      (show ("http://h/b" : String) ∉ ["http://h/a", "http://h/r"] from by decide) rfl rfl) ?_
  unfold visitPage childEntries effRelOf
  simp [collect_links, get_current_folder_name, chainEnv, baseEnv, cfgOpen,
    originReject, resolveHref, startsWithHttp, pyOr, hC, sanitize_stripStr,
    show stripStr "" = "" from rfl]

theorem c2_chain_step4 (A B C : String) :
    step cfgOpen (chainEnv A B C)
      { queue := [("http://h/c",
          [sanitize_filename A, sanitize_filename B, sanitize_filename C])],
        visited := ["http://h/b", "http://h/a", "http://h/r"], done := [], store := [],
        persists := 0,
        trace := [Event.nav "http://h/r", Event.nav "http://h/a", Event.nav "http://h/b"] } =
      { queue := [], visited := ["http://h/c", "http://h/b", "http://h/a", "http://h/r"],
        done := ["http://h/f"], store := ["http://h/f"], persists := 1,
        trace := [Event.nav "http://h/r", Event.nav "http://h/a", Event.nav "http://h/b",
          Event.nav "http://h/c",
          Event.save [sanitize_filename A, sanitize_filename B, sanitize_filename C]
            "Q1.pdf" "http://h/f"] } := by
  refine Eq.trans (step_eq_visit rfl
      (show ("http://h/c" : String) ∉ ["http://h/b", "http://h/a", "http://h/r"] from by decide) rfl rfl) ?_
  unfold visitPage childEntries effRelOf
  simp [collect_links, get_current_folder_name, chainEnv, baseEnv, cfgOpen,
    originReject, resolveHref, startsWithHttp, pyOr, processFile,
    show stripStr "" = "" from rfl, show stripStr "Q1.pdf" = "Q1.pdf" from rfl,
    show sanitize_filename "Q1.pdf" = "Q1.pdf" from by decide]

/-- C2: a file reached through the folder chain A, B, C three levels below
the start page is saved under root/sanitize(A)/sanitize(B)/sanitize(C)/
filename when no current-folder signal is present; when the signal is
present on a visited page the effective local path appends the sanitized
current-folder name to the queued path, and when it is absent the effective
path is the queued path unchanged. -/
theorem c2_path_fidelity (A B C cf : String) (hA : stripStr A ≠ "")
    (hB : stripStr B ≠ "") (hC : stripStr C ≠ "") (hcf : stripStr cf ≠ "") :
    (crawl cfgOpen (chainEnv A B C) 4 (initState "http://h/r" [])).trace =
      [Event.nav "http://h/r", Event.nav "http://h/a", Event.nav "http://h/b",
        Event.nav "http://h/c",
        Event.save [sanitize_filename A, sanitize_filename B, sanitize_filename C]
          "Q1.pdf" "http://h/f"] ∧
    (crawl cfgOpen (singleEnv cf) 1 (initState "http://h/r" [])).trace =
      [Event.nav "http://h/r", Event.save [sanitize_filename cf] "Q1.pdf" "http://h/f"] ∧
    (crawl cfgOpen (singleEnv "") 1 (initState "http://h/r" [])).trace =
      [Event.nav "http://h/r", Event.save [] "Q1.pdf" "http://h/f"] := by
  refine ⟨?_, ?_, ?_⟩
  · have hc : crawl cfgOpen (chainEnv A B C) 4 (initState "http://h/r" []) =
        step cfgOpen (chainEnv A B C) (step cfgOpen (chainEnv A B C)
          (step cfgOpen (chainEnv A B C) (step cfgOpen (chainEnv A B C)
            (initState "http://h/r" [])))) := rfl
    rw [hc, c2_chain_step1 A B C hA, c2_chain_step2 A B C hB, c2_chain_step3 A B C hC,
      c2_chain_step4 A B C]
  · have hc : crawl cfgOpen (singleEnv cf) 1 (initState "http://h/r" []) =
        step cfgOpen (singleEnv cf) (initState "http://h/r" []) := rfl
    rw [hc]
    have hs := @step_eq_visit cfgOpen (singleEnv cf) (initState "http://h/r" [])
      "http://h/r" [] [] rfl (List.not_mem_nil _) rfl rfl
    rw [hs]
    unfold visitPage childEntries effRelOf
    simp [collect_links, get_current_folder_name, singleEnv, baseEnv, cfgOpen,
      originReject, resolveHref, startsWithHttp, pyOr, processFile, hcf, sanitize_stripStr,
      show stripStr "Q1.pdf" = "Q1.pdf" from rfl,
      show sanitize_filename "Q1.pdf" = "Q1.pdf" from by decide, initState]
  · have hc : crawl cfgOpen (singleEnv "") 1 (initState "http://h/r" []) =
        step cfgOpen (singleEnv "") (initState "http://h/r" []) := rfl
    rw [hc]
    have hs := @step_eq_visit cfgOpen (singleEnv "") (initState "http://h/r" [])
      "http://h/r" [] [] rfl (List.not_mem_nil _) rfl rfl
    rw [hs]
    unfold visitPage childEntries effRelOf
    simp [collect_links, get_current_folder_name, singleEnv, baseEnv, cfgOpen,
      originReject, resolveHref, startsWithHttp, pyOr, processFile,
      show stripStr "" = "" from rfl, show stripStr "Q1.pdf" = "Q1.pdf" from rfl,
      show sanitize_filename "Q1.pdf" = "Q1.pdf" from by decide, initState]

/-- C2 witness: the chain scenario at concrete folder names. -/
theorem c2_path_fidelity_witness :
    (crawl cfgOpen (chainEnv "Alpha" "Beta" "Gamma") 4 (initState "http://h/r" [])).trace =
      [Event.nav "http://h/r", Event.nav "http://h/a", Event.nav "http://h/b",
        Event.nav "http://h/c",
        Event.save [sanitize_filename "Alpha", sanitize_filename "Beta",
          sanitize_filename "Gamma"] "Q1.pdf" "http://h/f"] := by
  exact (c2_path_fidelity "Alpha" "Beta" "Gamma" "CF" (by decide) (by decide) (by decide)
    (by decide)).1

/-! ### C1: idempotence of repeated runs -/

theorem foldl_done_mono (env : Env) (e : List String) (a : String)
    (files : List (String × String)) (st : RunState) :
    st.done ⊆ (files.foldl (processFile env e a) st).done :=
  foldl_preserve (P := fun s => st.done ⊆ s.done)
    (fun s2 l h => h.trans (processFile_done_mono env e a s2 l)) files st (fun x hx => hx)

theorem crawl_stable (cfg : Config) (env : Env) :
    ∀ (n : Nat) (st : RunState), st.queue = [] → crawl cfg env n st = st := by
  intro n
  induction n with
  | zero => intro st h; rfl
  | succ m ih =>
    intro st h
    show crawl cfg env m (step cfg env st) = st
    rw [step_eq_nil h]
    exact ih st h

theorem crawl_done_bound (cfg : Config) (env : Env) (n : Nat) (st : RunState)
    (hdone : (crawl cfg env n st).queue = []) :
    ∀ j, (crawl cfg env j st).done ⊆ (crawl cfg env n st).done := by
  intro j
  rcases le_total j n with h | h
  · exact crawl_done_mono_fuel cfg env st h
  · have h2 : crawl cfg env j st = crawl cfg env n st := by
      have h3 : n + (j - n) = j := by omega
      rw [← h3, crawl_add, crawl_stable cfg env (j - n) _ hdone]
    rw [h2]
    exact fun x hx => hx

theorem processFile_coupled (env : Env) (e : List String) (a : String) (D : List String)
    (st s2 : RunState) (l : String × String)
    (hsub : st.done ⊆ D) (hnext : (processFile env e a st l).done ⊆ D)
    (hc : Coupled D st s2) :
    Coupled D (processFile env e a st l) (processFile env e a s2 l) := by
  obtain ⟨hq, hv, hd, hs, hp, hsc⟩ := hc
  by_cases hu : resolveHref env a l.1 ∈ D
  · have hskip : processFile env e a s2 l = s2 := processFile_skip (by rw [hd]; exact hu)
    rw [hskip]
    exact ⟨by rw [processFile_queue, hq], by rw [processFile_visited, hv], hd, hs, hp, hsc⟩
  · have hu1 : resolveHref env a l.1 ∉ st.done := fun hmm => hu (hsub hmm)
    have hu2 : resolveHref env a l.1 ∉ s2.done := by rw [hd]; exact hu
    cases hcap : env.capture (resolveHref env a l.1) with
    | some sug =>
      exfalso
      apply hu
      apply hnext
      rw [processFile_capture hu1 hcap]
      exact List.mem_cons_self _ _
    | none =>
      cases hf : env.fetch (resolveHref env a l.1) with
      | err =>
        rw [processFile_fallback_fail hu1 hcap (Or.inl hf),
          processFile_fallback_fail hu2 hcap (Or.inl hf)]
        exact ⟨hq, hv, hd, hs, hp, by rw [saveCount_append, hsc]; rfl⟩
      | noResp =>
        rw [processFile_fallback_fail hu1 hcap (Or.inr (Or.inl hf)),
          processFile_fallback_fail hu2 hcap (Or.inr (Or.inl hf))]
        exact ⟨hq, hv, hd, hs, hp, by rw [saveCount_append, hsc]; rfl⟩
      | resp ok =>
        cases ok with
        | true =>
          exfalso
          apply hu
          apply hnext
          rw [processFile_fallback_ok hu1 hcap hf]
          exact List.mem_cons_self _ _
        | false =>
          rw [processFile_fallback_fail hu1 hcap (Or.inr (Or.inr hf)),
            processFile_fallback_fail hu2 hcap (Or.inr (Or.inr hf))]
          exact ⟨hq, hv, hd, hs, hp, by rw [saveCount_append, hsc]; rfl⟩

theorem foldl_coupled (env : Env) (e : List String) (a : String) (D : List String) :
    ∀ (files : List (String × String)) (st s2 : RunState),
      (files.foldl (processFile env e a) st).done ⊆ D → st.done ⊆ D → Coupled D st s2 →
      Coupled D (files.foldl (processFile env e a) st)
        (files.foldl (processFile env e a) s2) := by
  intro files
  induction files with
  | nil => intro st s2 h1 h2 hc; exact hc
  | cons l t ih =>
    intro st s2 h1 h2 hc
    simp only [List.foldl_cons] at h1 ⊢
    have hmid : (processFile env e a st l).done ⊆ D :=
      (foldl_done_mono env e a t (processFile env e a st l)).trans h1
    exact ih _ _ h1 hmid (processFile_coupled env e a D st s2 l h2 hmid hc)

theorem step_coupled (cfg : Config) (env : Env) (D : List String) (st s2 : RunState)
    (hnext : (step cfg env st).done ⊆ D) (hsub : st.done ⊆ D) (hc : Coupled D st s2) :
    Coupled D (step cfg env st) (step cfg env s2) := by
  obtain ⟨hq, hv, hd, hs, hp, hsc⟩ := hc
  rcases hqs : st.queue with _ | ⟨⟨url, rel⟩, rest⟩
  · have hq2 : s2.queue = [] := by rw [hq, hqs]
    rw [step_eq_nil hqs, step_eq_nil hq2]
    exact ⟨hq, hv, hd, hs, hp, hsc⟩
  · have hq2 : s2.queue = (url, rel) :: rest := by rw [hq, hqs]
    by_cases hvv : resolveHref env (cfg.baseUrl ++ "/") url ∈ st.visited
    · have hvv2 : resolveHref env (cfg.baseUrl ++ "/") url ∈ s2.visited := by
        rw [hv]; exact hvv
      rw [step_eq_visited hqs hvv, step_eq_visited hq2 hvv2]
      exact ⟨rfl, hv, hd, hs, hp, hsc⟩
    · have hvv2 : resolveHref env (cfg.baseUrl ++ "/") url ∉ s2.visited := by
        rw [hv]; exact hvv
      by_cases ho : originReject cfg env (resolveHref env (cfg.baseUrl ++ "/") url)
        (resolveHref env (cfg.baseUrl ++ "/") url) = true
      · rw [step_eq_origin hqs hvv ho, step_eq_origin hq2 hvv2 ho]
        exact ⟨rfl, hv, hd, hs, hp, hsc⟩
      · have ho2 : originReject cfg env (resolveHref env (cfg.baseUrl ++ "/") url)
            (resolveHref env (cfg.baseUrl ++ "/") url) = false := by simpa using ho
        by_cases hnav : env.navOk (resolveHref env (cfg.baseUrl ++ "/") url) = true
        · have hnext2 : ((collect_links
              (env.rawFolderLinks (resolveHref env (cfg.baseUrl ++ "/") url))
              (env.rawFileLinks (resolveHref env (cfg.baseUrl ++ "/") url))).2.foldl
                (processFile env
                  (effRelOf env (resolveHref env (cfg.baseUrl ++ "/") url) rel)
                  (resolveHref env (cfg.baseUrl ++ "/") url))
                { st with
                    visited := resolveHref env (cfg.baseUrl ++ "/") url :: st.visited,
                    trace := st.trace ++
                      [Event.nav (resolveHref env (cfg.baseUrl ++ "/") url)],
                    queue := rest ++ childEntries cfg env
                      (resolveHref env (cfg.baseUrl ++ "/") url)
                      (effRelOf env (resolveHref env (cfg.baseUrl ++ "/") url) rel) }).done
              ⊆ D := by
            rw [step_eq_visit hqs hvv ho2 hnav] at hnext
            unfold visitPage at hnext
            exact hnext
          rw [step_eq_visit hqs hvv ho2 hnav, step_eq_visit hq2 hvv2 ho2 hnav]
          unfold visitPage
          apply foldl_coupled env _ _ D _ _ _ hnext2 hsub
          refine ⟨?_, ?_, hd, hs, hp, ?_⟩
          · show rest ++ _ = rest ++ _
            rfl
          · show resolveHref env (cfg.baseUrl ++ "/") url :: s2.visited = _
            rw [hv]
          · show saveCount (s2.trace ++
              [Event.nav (resolveHref env (cfg.baseUrl ++ "/") url)]) = 0
            rw [saveCount_append, hsc]
            rfl
        · have hnav2 : env.navOk (resolveHref env (cfg.baseUrl ++ "/") url) = false := by
            simpa using hnav
          rw [step_eq_timeout hqs hvv ho2 hnav2, step_eq_timeout hq2 hvv2 ho2 hnav2]
          refine ⟨rfl, hv, hd, hs, hp, ?_⟩
          show saveCount (s2.trace ++
            [Event.navTimeout (resolveHref env (cfg.baseUrl ++ "/") url)]) = 0
          rw [saveCount_append, hsc]
          rfl

theorem crawl_coupled (cfg : Config) (env : Env) (D : List String) :
    ∀ (n : Nat) (st s2 : RunState),
      (∀ j, (crawl cfg env j st).done ⊆ D) → Coupled D st s2 →
      Coupled D (crawl cfg env n st) (crawl cfg env n s2) := by
  intro n
  induction n with
  | zero => intro st s2 hj hc; exact hc
  | succ m ih =>
    intro st s2 hj hc
    show Coupled D (crawl cfg env m (step cfg env st)) (crawl cfg env m (step cfg env s2))
    exact ih (step cfg env st) (step cfg env s2) (fun j => hj (j + 1))
      (step_coupled cfg env D st s2 (hj 1) (hj 0) hc)

/-- C1: a file reference whose URL is already in the DownloadedSet is skipped
with no download attempt, no file write and no change to the set or store;
consequently a second run over the unchanged environment, started from the
persisted store of a completed first run, follows the same traversal and
produces zero new downloads, zero persist calls and zero new entries in the
State Store. -/
theorem c1_idempotent_second_run (cfg : Config) (env : Env) (n m : Nat) (start : String)
    (d0 : List String) (e : List String) (a2 : String) (st2 : RunState)
    (l : String × String)
    (hml : resolveHref env a2 l.1 ∈ st2.done)
    (hdone : (crawl cfg env n (initState start d0)).queue = []) :
    processFile env e a2 st2 l = st2 ∧
    (crawl cfg env m (initState start
        (crawl cfg env n (initState start d0)).store)).done =
      (crawl cfg env n (initState start d0)).done ∧
    (crawl cfg env m (initState start
        (crawl cfg env n (initState start d0)).store)).store =
      (crawl cfg env n (initState start d0)).done ∧
    (crawl cfg env m (initState start
        (crawl cfg env n (initState start d0)).store)).persists = 0 ∧
    saveCount (crawl cfg env m (initState start
        (crawl cfg env n (initState start d0)).store)).trace = 0 := by
  have hstore : (crawl cfg env n (initState start d0)).store =
      (crawl cfg env n (initState start d0)).done :=
    (crawl_storeInv cfg env d0 n (initState start d0)
      ⟨rfl, fun x hx => hx, fun u2 hu2 => by simp [savedUrls, initState] at hu2⟩).1
  have hbound := crawl_done_bound cfg env n (initState start d0) hdone
  have hcoup := crawl_coupled cfg env (crawl cfg env n (initState start d0)).done m
    (initState start d0)
    (initState start (crawl cfg env n (initState start d0)).store)
    hbound (by rw [hstore]; exact ⟨rfl, rfl, rfl, rfl, rfl, rfl⟩)
  exact ⟨processFile_skip hml, hcoup.2.2.1, hcoup.2.2.2.1, hcoup.2.2.2.2.1,
    hcoup.2.2.2.2.2⟩

/-- C1 witness: the idempotence conclusions at a concrete one-page, one-file
environment whose first run completes and downloads the file. -/
theorem c1_idempotent_second_run_witness :
    (crawl cfgOpen envOneFile 2 (initState "http://h/r" [])).queue = [] ∧
    (crawl cfgOpen envOneFile 2 (initState "http://h/r"
        (crawl cfgOpen envOneFile 2 (initState "http://h/r" [])).store)).done =
      (crawl cfgOpen envOneFile 2 (initState "http://h/r" [])).done ∧
    saveCount (crawl cfgOpen envOneFile 2 (initState "http://h/r"
        (crawl cfgOpen envOneFile 2 (initState "http://h/r" [])).store)).trace = 0 := by
  have h := c1_idempotent_second_run cfgOpen envOneFile 2 2 "http://h/r" [] []
    "x" (initState "s" ["http://h/f"]) ("http://h/f", "T") (by decide) (by decide)
  exact ⟨by decide, h.2.1, h.2.2.2.2⟩

end Crawler
